import Mathlib

/-!
Shallow embedding of mask_rcnn_pytorch/imageutils.cpp.

Images (cv::Mat, single conceptual channel) are modelled as a size together
with a total pixel function over integer coordinates; pixel samples are exact
rationals standing in for the C++ floats.  All functions below are translated
from the source file; the few definitions that instead follow the
specification's words are marked as such in their doc comments.
-/

namespace ImageUtils

/-- std::round on a nonnegative-or-negative rational: round half away from zero. -/
def rnd (q : ℚ) : Int :=
  if 0 ≤ q then ⌊q + 1/2⌋ else -⌊-q + 1/2⌋

/-- C++ float-to-int conversion (static_cast<int>, Tensor.to(kInt/kLong)):
truncation toward zero. -/
def truncQ (q : ℚ) : Int :=
  if 0 ≤ q then ⌊q⌋ else ⌈q⌉

/-- Window (y1, x1, y2, x2): sub-rectangle of a processed frame holding real
image content. -/
structure Window where
  y1 : Int
  x1 : Int
  y2 : Int
  x2 : Int
deriving DecidableEq

/-- Modelled from the spec: the struct Padding lives in imageutils.h, which is
not part of src/.  Spec section 3 gives fields {top, bottom, left, right} plus
two unused placeholder fields, and section 8 shows the default value is all
zeros (padding = {0,0,0,0} for the degenerate ResizeImage call). -/
structure Padding where
  top_pad : Int := 0
  bottom_pad : Int := 0
  left_pad : Int := 0
  right_pad : Int := 0
  ph5 : Int := 0
  ph6 : Int := 0
deriving DecidableEq

/-- cv::Size (width, height) as used for the original image shape. -/
structure Size where
  height : Int
  width : Int
deriving DecidableEq

/-- A cv::Mat: row/column counts and a total pixel sample function. -/
structure Mat where
  rows : Int
  cols : Int
  px : Int → Int → ℚ

/-- The all-zero 0x0 matrix, used as a list default. -/
def zeroMat : Mat := ⟨0, 0, fun _ _ => 0⟩

instance : Inhabited Mat := ⟨zeroMat⟩

/-- Bilinear sample of a matrix at continuous coordinates (x, y), with edge
clamping, as cv::resize with INTER_LINEAR does. -/
def bilinearAt (m : Mat) (x y : ℚ) : ℚ :=
  let x0 := ⌊x⌋
  let y0 := ⌊y⌋
  let fx := x - x0
  let fy := y - y0
  let p : Int → Int → ℚ := fun yy xx =>
    m.px (max 0 (min yy (m.rows - 1))) (max 0 (min xx (m.cols - 1)))
  (1 - fy) * ((1 - fx) * p y0 x0 + fx * p y0 (x0 + 1)) +
    fy * ((1 - fx) * p (y0 + 1) x0 + fx * p (y0 + 1) (x0 + 1))

/-- cv::resize(m, (new_cols, new_rows), INTER_LINEAR): every output pixel
samples the source at ((dst + 1/2) * src_size / dst_size) - 1/2. -/
def cvResize (m : Mat) (new_cols new_rows : Int) : Mat :=
  { rows := new_rows
    cols := new_cols
    px := fun r c =>
      bilinearAt m (((c : ℚ) + 1/2) * ((m.cols : ℚ) / (new_cols : ℚ)) - 1/2)
        (((r : ℚ) + 1/2) * ((m.rows : ℚ) / (new_rows : ℚ)) - 1/2) }

/-- cv::copyMakeBorder with BORDER_CONSTANT and a zero scalar. -/
def copyMakeBorder (m : Mat) (top bottom left right : Int) : Mat :=
  { rows := m.rows + top + bottom
    cols := m.cols + left + right
    px := fun r c =>
      if top ≤ r ∧ r < top + m.rows ∧ left ≤ c ∧ c < left + m.cols then
        m.px (r - top) (c - left)
      else 0 }

/-- The min_dim scaling term of ResizeImage:
scale = max(1, min_dim / min(h, w)) when min_dim is nonzero, else 1. -/
def scaleMin (h w min_dim : Int) : ℚ :=
  if min_dim ≠ 0 then max 1 ((min_dim : ℚ) / ((min h w : Int) : ℚ)) else 1

/-- The final scale of ResizeImage: the min_dim term, shrunk to
max_dim / max(h, w) when max_dim is nonzero and round(max(h, w) * scale)
exceeds max_dim. -/
def scaleFinal (h w min_dim max_dim : Int) : ℚ :=
  let s := scaleMin h w min_dim
  if max_dim ≠ 0 ∧ max_dim < rnd (((max h w : Int) : ℚ) * s) then
    (max_dim : ℚ) / ((max h w : Int) : ℚ)
  else s

/-- The image after the conditional cv::resize step of ResizeImage
(resized to round(w*scale) x round(h*scale) when scale is not 1). -/
def resizedMat (image : Mat) (min_dim max_dim : Int) : Mat :=
  let s := scaleFinal image.rows image.cols min_dim max_dim
  if s ≠ 1 then
    cvResize image (rnd ((image.cols : ℚ) * s)) (rnd ((image.rows : ℚ) * s))
  else image

/-- Result tuple of ResizeImage. -/
structure ResizeResult where
  image : Mat
  window : Window
  scale : ℚ
  padding : Padding

/-- ResizeImage(image, min_dim, max_dim, do_padding), translated line by line
from imageutils.cpp.  C++ int division (/ 2 on possibly negative values)
is Int.tdiv. -/
def ResizeImage (image : Mat) (min_dim max_dim : Int) (do_padding : Bool) :
    ResizeResult :=
  let h := image.rows
  let w := image.cols
  let window : Window := ⟨0, 0, h, w⟩
  let padding : Padding := {}
  let s := scaleFinal h w min_dim max_dim
  let image2 := resizedMat image min_dim max_dim
  if do_padding then
    let h2 := image2.rows
    let w2 := image2.cols
    let top_pad := Int.tdiv (max_dim - h2) 2
    let bottom_pad := max_dim - h2 - top_pad
    let left_pad := Int.tdiv (max_dim - w2) 2
    let right_pad := max_dim - w2 - left_pad
    { image := copyMakeBorder image2 top_pad bottom_pad left_pad right_pad
      window := ⟨top_pad, left_pad, h2 + top_pad, w2 + left_pad⟩
      scale := s
      padding := ⟨top_pad, bottom_pad, left_pad, right_pad, 0, 0⟩ }
  else
    { image := image2, window := window, scale := s, padding := padding }

/-- Saturating conversion of one float sample to 8-bit (Mat::convertTo with
CV_8UC1): round, then clamp into [0, 255]. -/
def saturate8U (q : ℚ) : ℚ :=
  ((max 0 (min 255 (rnd q)) : Int) : ℚ)

/-- Pointwise Mat::convertTo(CV_8UC1). -/
def convertTo8U (m : Mat) : Mat :=
  { rows := m.rows, cols := m.cols, px := fun r c => saturate8U (m.px r c) }

/-- An integer box (y1, x1, y2, x2), the bbox tensor handed to UnmoldMask. -/
structure IBox where
  y1 : Int
  x1 : Int
  y2 : Int
  x2 : Int
deriving DecidableEq

/-- UnmoldMask(mask, bbox, image_shape): bilinear-resize the low-resolution
mask to (x2-x1) x (y2-y1), threshold at 0.5 (cv::THRESH_BINARY, strict >,
binary value 1), multiply by 255, paste into a zero canvas of the original
image size at the box location, and convert to 8-bit. -/
def UnmoldMask (mask : Mat) (bbox : IBox) (image_shape : Size) : Mat :=
  let y1 := bbox.y1
  let x1 := bbox.x1
  let y2 := bbox.y2
  let x2 := bbox.x2
  let resized := cvResize mask (x2 - x1) (y2 - y1)
  let cv_mask : Mat :=
    { rows := resized.rows
      cols := resized.cols
      px := fun r c => (if 1/2 < resized.px r c then 1 else 0) * 255 }
  let full_mask : Mat :=
    { rows := image_shape.height
      cols := image_shape.width
      px := fun r c =>
        if y1 ≤ r ∧ r < y2 ∧ x1 ≤ c ∧ c < x2 then
          cv_mask.px (r - y1) (c - x1)
        else 0 }
  convertTo8U full_mask

/-- One row of the fixed-capacity detections buffer:
(y1, x1, y2, x2, class_id, score), all float samples. -/
structure DetRow where
  y1 : ℚ
  x1 : ℚ
  y2 : ℚ
  x2 : ℚ
  class_id : ℚ
  score : ℚ
deriving DecidableEq

instance : Inhabited DetRow := ⟨⟨0, 0, 0, 0, 0, 0⟩⟩

/-- Index of the first row whose class_id field (column 4) equals zero, or the
number of rows when no such row exists — the nonzero() scan of
UnmoldDetections. -/
def firstZeroIdx : List DetRow → ℕ
  | [] => 0
  | d :: rest => if d.class_id = 0 then 0 else firstZeroIdx rest + 1

/-- Remapping of one detection box to the original image domain, as
UnmoldDetections does it: shift by (window.y1, window.x1, window.y1,
window.x1), scale all four coordinates by min(h_scale, w_scale), then
truncate to integer (.to(kInt)). -/
def remapBox (window : Window) (image_shape : Size) (d : DetRow) : IBox :=
  let h_scale : ℚ := (image_shape.height : ℚ) / ((window.y2 - window.y1 : Int) : ℚ)
  let w_scale : ℚ := (image_shape.width : ℚ) / ((window.x2 - window.x1 : Int) : ℚ)
  let s := min h_scale w_scale
  ⟨truncQ ((d.y1 - (window.y1 : ℚ)) * s), truncQ ((d.x1 - (window.x1 : ℚ)) * s),
    truncQ ((d.y2 - (window.y1 : ℚ)) * s), truncQ ((d.x2 - (window.x1 : ℚ)) * s)⟩

/-- Result tuple of UnmoldDetections. -/
structure UnmoldResult where
  boxes : List IBox
  class_ids : List Int
  scores : List ℚ
  full_masks : List Mat

/-- The part of UnmoldDetections that runs after the first N rows and their
per-class masks have been extracted: remap the boxes, filter on positive
area, and rebuild full-size masks.  The branch on include_ix mirrors the
source: when no detection survives the area filter the outputs are left
unfiltered (the source marks the empty case as an unimplemented TODO). -/
def unmoldTail (dets : List DetRow) (masks : List Mat) (image_shape : Size)
    (window : Window) : UnmoldResult :=
  let n := dets.length
  let class_ids := dets.map (fun d => truncQ d.class_id)
  let scores := dets.map (fun d => d.score)
  let boxes := dets.map (remapBox window image_shape)
  let include_ix := (List.range n).filter (fun i =>
    let b := boxes.getD i ⟨0, 0, 0, 0⟩
    0 < (b.y2 - b.y1) * (b.x2 - b.x1))
  if 0 < include_ix.length then
    let boxes2 := include_ix.map (fun i => boxes.getD i ⟨0, 0, 0, 0⟩)
    let class_ids2 := include_ix.map (fun i => class_ids.getD i 0)
    let scores2 := include_ix.map (fun i => scores.getD i 0)
    let masks2 := include_ix.map (fun i => masks.getD i zeroMat)
    let n2 := class_ids2.length
    let full_masks := (List.range n2).map (fun i =>
      UnmoldMask (masks2.getD i zeroMat) (boxes2.getD i ⟨0, 0, 0, 0⟩) image_shape)
    ⟨boxes2, class_ids2, scores2, full_masks⟩
  else
    let full_masks := (List.range n).map (fun i =>
      UnmoldMask (masks.getD i zeroMat) (boxes.getD i ⟨0, 0, 0, 0⟩) image_shape)
    ⟨boxes, class_ids, scores, full_masks⟩

/-- UnmoldDetections(detections, mrcnn_mask, image_shape, window).  The
per-class mask stack (dimension 3 of mrcnn_mask) is modelled as, per
detection row, a function from class id to low-resolution mask:
index_select_2d picks mask i at that row's (truncated) class id. -/
def UnmoldDetections (detections : List DetRow) (mrcnn_mask : List (Int → Mat))
    (image_shape : Size) (window : Window) : UnmoldResult :=
  let N := firstZeroIdx detections
  let dets := detections.take N
  let class_ids := dets.map (fun d => truncQ d.class_id)
  let masks := (List.range N).map
    (fun i => (mrcnn_mask.getD i (fun _ => zeroMat)) (class_ids.getD i 0))
  unmoldTail dets masks image_shape window

/-- Resizing of a single mask inside ResizeMasks: bilinear resize to
round(cols*scale) x round(rows*scale), then zero-padding with the given
per-edge amounts. -/
def resizeMaskOne (scale : ℚ) (padding : Padding) (mask : Mat) : Mat :=
  let m := cvResize mask (rnd ((mask.cols : ℚ) * scale)) (rnd ((mask.rows : ℚ) * scale))
  copyMakeBorder m padding.top_pad padding.bottom_pad padding.left_pad
    padding.right_pad

/-- ResizeMasks(masks, scale, padding): each mask independently, in order. -/
def ResizeMasks (masks : List Mat) (scale : ℚ) (padding : Padding) : List Mat :=
  masks.map (resizeMaskOne scale padding)

/-! Helper lemmas. -/

theorem getD_take_of_lt {α : Type _} (l : List α) (d : α) :
    ∀ n i : ℕ, i < n → (l.take n).getD i d = l.getD i d := by
  induction l with
  | nil => intro n i _; simp [List.getD]
  | cons a l ih =>
    intro n i hi
    cases n with
    | zero => omega
    | succ n =>
      cases i with
      | zero => rfl
      | succ i => simpa [List.getD] using ih n i (by omega)

theorem getD_map_of_lt {α β : Type _} (f : α → β) (l : List α) (d : α) (d' : β)
    {i : ℕ} (h : i < l.length) : (l.map f).getD i d' = f (l.getD i d) := by
  have h' : i < (l.map f).length := by simpa using h
  rw [List.getD_eq_getElem _ _ h', List.getD_eq_getElem _ _ h, List.getElem_map]

theorem map_eq_range_map {α β : Type _} (f : α → β) (d : α) (l : List α) :
    l.map f = (List.range l.length).map (fun i => f (l.getD i d)) := by
  induction l with
  | nil => rfl
  | cons a l ih =>
    rw [List.map_cons, List.length_cons, List.range_succ_eq_map, List.map_cons,
      List.map_map, ih]
    exact congrArg (_ :: ·) (List.map_congr_left fun i _ => by simp [List.getD])

theorem firstZeroIdx_le_length (l : List DetRow) : firstZeroIdx l ≤ l.length := by
  induction l with
  | nil => simp [firstZeroIdx]
  | cons d rest ih =>
    by_cases h : d.class_id = 0 <;> simp [firstZeroIdx, h] <;> omega

theorem firstZeroIdx_lt_ne_zero (l : List DetRow) :
    ∀ j : ℕ, j < firstZeroIdx l → (l.getD j default).class_id ≠ 0 := by
  induction l with
  | nil => intro j h; simp [firstZeroIdx] at h
  | cons d rest ih =>
    intro j hj
    by_cases h : d.class_id = 0
    · simp [firstZeroIdx, h] at hj
    · cases j with
      | zero => simpa [List.getD] using h
      | succ j =>
        simp only [firstZeroIdx, h, if_false] at hj
        simpa [List.getD] using ih j (by omega)

theorem firstZeroIdx_getD_eq_zero (l : List DetRow)
    (h : firstZeroIdx l < l.length) : (l.getD (firstZeroIdx l) default).class_id = 0 := by
  induction l with
  | nil => simp [firstZeroIdx] at h
  | cons d rest ih =>
    by_cases hd : d.class_id = 0
    · simpa [firstZeroIdx, hd, List.getD] using hd
    · simp only [firstZeroIdx, hd, if_false, List.length_cons] at h ⊢
      simpa [List.getD] using ih (by omega)

theorem firstZeroIdx_take (l : List DetRow) :
    firstZeroIdx (l.take (firstZeroIdx l)) = firstZeroIdx l := by
  induction l with
  | nil => rfl
  | cons d rest ih =>
    by_cases h : d.class_id = 0
    · simp [firstZeroIdx, h]
    · simp [firstZeroIdx, h, List.take, ih]

theorem rnd_err (q : ℚ) (h : 0 ≤ q) : |(rnd q : ℚ) - q| ≤ 1/2 := by
  rw [rnd, if_pos h, abs_le]
  constructor
  · have := Int.lt_floor_add_one (q + 1/2)
    linarith
  · have := Int.floor_le (q + 1/2)
    linarith

theorem rnd_nonneg (q : ℚ) (h : 0 ≤ q) : 0 ≤ rnd q := by
  rw [rnd, if_pos h]
  have : (0 : ℤ) = ⌊(0 : ℚ)⌋ := by norm_num
  rw [this]
  exact Int.floor_le_floor (by linarith)

/-! Claim theorems. -/

/-- Claim C6: for every image, ResizeImage with min_dim = 0, max_dim = 0 and
no padding returns the image unchanged, scale 1, window {0,0,h,w} and an
all-zero padding. -/
theorem resizeImage_degenerate_identity (img : Mat) :
    ResizeImage img 0 0 false =
      ⟨img, ⟨0, 0, img.rows, img.cols⟩, 1, ⟨0, 0, 0, 0, 0, 0⟩⟩ := by
  rfl

/-- A concrete 100x100 constant image used as counterexample input. -/
def cImg100 : Mat := ⟨100, 100, fun _ _ => 7⟩

/-- Claim C3 counterexample: for the 100x100 image with min_dim = 200,
max_dim = 0 and no padding, the image is resized to 200x200 but the returned
window stays {0,0,100,100}: it is not the {0,0,height,width} of the resized
image that the claim asserts. -/
theorem resizeImage_window_counterexample :
    ¬ ((ResizeImage cImg100 200 0 false).window =
        ⟨0, 0, (ResizeImage cImg100 200 0 false).image.rows,
          (ResizeImage cImg100 200 0 false).image.cols⟩) := by
  intro h
  have hs : scaleFinal (100 : ℤ) 100 200 0 = 2 := by
    rw [scaleFinal, scaleMin]
    norm_num
  have hr : (ResizeImage cImg100 200 0 false).image.rows = 200 := by
    show (resizedMat cImg100 200 0).rows = 200
    rw [resizedMat]
    simp only [cImg100, hs]
    norm_num [cvResize, rnd]
  have hw : (ResizeImage cImg100 200 0 false).window = ⟨0, 0, 100, 100⟩ := rfl
  rw [hw, hr] at h
  simp only [Window.mk.injEq] at h
  omega

/-- Claim C3 (amended): with do_padding false the returned window is
{0,0,h,w} of the ORIGINAL input image (the source sets the window before
resizing and never updates it in the no-padding path), while the returned
image does have the resized dimensions, with no canvas padding applied and
an all-zero padding record. -/
theorem resizeImage_no_padding_window (img : Mat) (min_dim max_dim : Int) :
    (ResizeImage img min_dim max_dim false).window = ⟨0, 0, img.rows, img.cols⟩ ∧
    (ResizeImage img min_dim max_dim false).image.rows =
      (if (ResizeImage img min_dim max_dim false).scale = 1 then img.rows
        else rnd ((img.rows : ℚ) * (ResizeImage img min_dim max_dim false).scale)) ∧
    (ResizeImage img min_dim max_dim false).image.cols =
      (if (ResizeImage img min_dim max_dim false).scale = 1 then img.cols
        else rnd ((img.cols : ℚ) * (ResizeImage img min_dim max_dim false).scale)) ∧
    (ResizeImage img min_dim max_dim false).padding = ⟨0, 0, 0, 0, 0, 0⟩ := by
  refine ⟨rfl, ?_, ?_, rfl⟩ <;>
  · by_cases h : scaleFinal img.rows img.cols min_dim max_dim = 1 <;>
      simp [ResizeImage, resizedMat, cvResize, h]

/-- Scale computation as the spec words it, written independently for the
refinement comparison: scale = max(1, min_dim / min(h, w)) when min_dim is
nonzero, replaced by max_dim / max(h, w) when max_dim is nonzero and
round(max(h, w) * scale) exceeds max_dim. -/
def spec_scale (h w min_dim max_dim : Int) : ℚ :=
  let s : ℚ := if min_dim ≠ 0 then max 1 ((min_dim : ℚ) / ((min h w : Int) : ℚ)) else 1
  if max_dim ≠ 0 ∧ max_dim < rnd (((max h w : Int) : ℚ) * s) then
    (max_dim : ℚ) / ((max h w : Int) : ℚ)
  else s

/-- Claim C5: for a nonempty image, the min_dim term of the scale is
max(1, min_dim / min(h, w)) and never shrinks (it is at least 1); the final
scale of ResizeImage is exactly the spec's formula, and when
round(max(h, w) * scale) is at most max_dim no shrink replaces the scale. -/
theorem resizeImage_scale_formula (img : Mat) (min_dim max_dim : Int) (dp : Bool)
    (hr : 0 < img.rows) (hc : 0 < img.cols) :
    1 ≤ scaleMin img.rows img.cols min_dim ∧
    (min_dim ≠ 0 → scaleMin img.rows img.cols min_dim =
      max 1 ((min_dim : ℚ) / ((min img.rows img.cols : Int) : ℚ))) ∧
    (ResizeImage img min_dim max_dim dp).scale =
      spec_scale img.rows img.cols min_dim max_dim ∧
    (max_dim ≠ 0 →
      rnd (((max img.rows img.cols : Int) : ℚ) * scaleMin img.rows img.cols min_dim)
        ≤ max_dim →
      (ResizeImage img min_dim max_dim dp).scale = scaleMin img.rows img.cols min_dim) := by
  refine ⟨?_, ?_, ?_, ?_⟩
  · rw [scaleMin]
    split_ifs with h
    · exact le_max_left 1 _
    · exact le_refl 1
  · intro h
    rw [scaleMin, if_pos h]
  · cases dp <;> rfl
  · intro hmd hle
    have hsc : (ResizeImage img min_dim max_dim dp).scale =
        scaleFinal img.rows img.cols min_dim max_dim := by cases dp <;> rfl
    rw [hsc, scaleFinal]
    have hcond : ¬ (max_dim ≠ 0 ∧ max_dim <
        rnd (((max img.rows img.cols : Int) : ℚ) * scaleMin img.rows img.cols min_dim)) := by
      intro hand
      omega
    rw [if_neg hcond]

/-- A concrete 2x3 constant image used by several witnesses. -/
def cMat23 : Mat := ⟨2, 3, fun _ _ => 5⟩

/-- Witness for C5 at the 2x3 image with min_dim = 4, max_dim = 0. -/
theorem resizeImage_scale_formula_witness :
    (0 : Int) < cMat23.rows ∧ (0 : Int) < cMat23.cols ∧
    (1 ≤ scaleMin cMat23.rows cMat23.cols 4 ∧
      (4 ≠ (0 : Int) → scaleMin cMat23.rows cMat23.cols 4 =
        max 1 ((4 : ℚ) / ((min cMat23.rows cMat23.cols : Int) : ℚ))) ∧
      (ResizeImage cMat23 4 0 false).scale = spec_scale cMat23.rows cMat23.cols 4 0 ∧
      ((0 : Int) ≠ 0 →
        rnd (((max cMat23.rows cMat23.cols : Int) : ℚ) * scaleMin cMat23.rows cMat23.cols 4)
          ≤ 0 →
        (ResizeImage cMat23 4 0 false).scale = scaleMin cMat23.rows cMat23.cols 4)) :=
  ⟨by decide, by decide, resizeImage_scale_formula cMat23 4 0 false (by decide) (by decide)⟩

/-- Box remapping as the spec words it, written independently for the
refinement comparison: h_scale = original_height / (window.y2 - window.y1),
w_scale = original_width / (window.x2 - window.x1), scale = min(h_scale,
w_scale); shift the four coordinates by (window.y1, window.x1, window.y1,
window.x1), multiply all four by the single uniform scale, truncate to
integer. -/
def spec_remap_box (window : Window) (original_height original_width : Int)
    (d : DetRow) : IBox :=
  let h_scale : ℚ := (original_height : ℚ) / ((window.y2 : ℚ) - (window.y1 : ℚ))
  let w_scale : ℚ := (original_width : ℚ) / ((window.x2 : ℚ) - (window.x1 : ℚ))
  let s := min h_scale w_scale
  ⟨truncQ ((d.y1 - (window.y1 : ℚ)) * s), truncQ ((d.x1 - (window.x1 : ℚ)) * s),
    truncQ ((d.y2 - (window.y1 : ℚ)) * s), truncQ ((d.x2 - (window.x1 : ℚ)) * s)⟩

theorem remapBox_eq_spec (window : Window) (image_shape : Size) (d : DetRow) :
    remapBox window image_shape d =
      spec_remap_box window image_shape.height image_shape.width d := by
  rw [remapBox, spec_remap_box]
  simp only [Int.cast_sub]

theorem unmoldTail_boxes (dets : List DetRow) (masks : List Mat)
    (image_shape : Size) (window : Window) :
    ∃ idxs : List ℕ, (∀ i ∈ idxs, i < dets.length) ∧
      (unmoldTail dets masks image_shape window).boxes =
        idxs.map (fun i => remapBox window image_shape (dets.getD i default)) := by
  simp only [unmoldTail]
  split
  · refine ⟨(List.range dets.length).filter (fun i =>
      let b := (dets.map (remapBox window image_shape)).getD i ⟨0, 0, 0, 0⟩
      0 < (b.y2 - b.y1) * (b.x2 - b.x1)), fun i hi => ?_, ?_⟩
    · exact List.mem_range.mp (List.mem_filter.mp hi).1
    · exact List.map_congr_left fun i hi =>
        getD_map_of_lt _ _ _ _ (List.mem_range.mp (List.mem_filter.mp hi).1)
  · exact ⟨List.range dets.length, fun i hi => List.mem_range.mp hi,
      map_eq_range_map _ default dets⟩

/-- Claim C4: every box in the output of UnmoldDetections is exactly the
spec's remapping formula — shift by (window.y1, window.x1, window.y1,
window.x1), multiply all four coordinates by the single uniform scale
min(original_height / (window.y2 - window.y1), original_width /
(window.x2 - window.x1)), truncate to integer — applied to one of the first
N input detection rows. -/
theorem unmoldDetections_remap_formula (detections : List DetRow)
    (mrcnn_mask : List (Int → Mat)) (image_shape : Size) (window : Window) :
    ∃ idxs : List ℕ, (∀ i ∈ idxs, i < firstZeroIdx detections) ∧
      (UnmoldDetections detections mrcnn_mask image_shape window).boxes =
        idxs.map (fun i => spec_remap_box window image_shape.height
          image_shape.width (detections.getD i default)) := by
  have hlen : (detections.take (firstZeroIdx detections)).length =
      firstZeroIdx detections := by
    rw [List.length_take]
    exact inf_eq_left.mpr (firstZeroIdx_le_length detections)
  obtain ⟨idxs, hmem, hbox⟩ := unmoldTail_boxes
    (detections.take (firstZeroIdx detections))
    ((List.range (firstZeroIdx detections)).map
      (fun i => (mrcnn_mask.getD i (fun _ => zeroMat))
        (((detections.take (firstZeroIdx detections)).map
          (fun d => truncQ d.class_id)).getD i 0)))
    image_shape window
  refine ⟨idxs, fun i hi => hlen ▸ hmem i hi, ?_⟩
  have hunf : UnmoldDetections detections mrcnn_mask image_shape window =
      unmoldTail (detections.take (firstZeroIdx detections))
        ((List.range (firstZeroIdx detections)).map
          (fun i => (mrcnn_mask.getD i (fun _ => zeroMat))
            (((detections.take (firstZeroIdx detections)).map
              (fun d => truncQ d.class_id)).getD i 0)))
        image_shape window := rfl
  rw [hunf, hbox]
  refine List.map_congr_left fun i hi => ?_
  have hi' : i < firstZeroIdx detections := hlen ▸ hmem i hi
  rw [getD_take_of_lt detections default _ i hi', remapBox_eq_spec]

/-- Claim C2: the count N of real detections is the index of the first row
whose class_id field (column 4) is zero — or the total number of rows when no
row has class_id zero — and UnmoldDetections depends only on the first N
detection rows and the first N mask stacks. -/
theorem unmoldDetections_valid_count (detections : List DetRow)
    (mrcnn_mask : List (Int → Mat)) (image_shape : Size) (window : Window) :
    firstZeroIdx detections ≤ detections.length ∧
    (∀ j : ℕ, j < firstZeroIdx detections →
      (detections.getD j default).class_id ≠ 0) ∧
    (firstZeroIdx detections < detections.length →
      (detections.getD (firstZeroIdx detections) default).class_id = 0) ∧
    UnmoldDetections detections mrcnn_mask image_shape window =
      UnmoldDetections (detections.take (firstZeroIdx detections))
        (mrcnn_mask.take (firstZeroIdx detections)) image_shape window := by
  refine ⟨firstZeroIdx_le_length _, firstZeroIdx_lt_ne_zero _,
    firstZeroIdx_getD_eq_zero _, ?_⟩
  have h2 := firstZeroIdx_take detections
  have hTT : (detections.take (firstZeroIdx detections)).take
      (firstZeroIdx detections) = detections.take (firstZeroIdx detections) := by
    rw [List.take_take]
    simp
  simp only [UnmoldDetections, h2, hTT]
  congr 1
  exact List.map_congr_left fun i hi => by
    rw [getD_take_of_lt _ _ _ _ (List.mem_range.mp hi)]

/-- Claim C7: when padding is requested and the resized image fits within
max_dim in both dimensions, ResizeImage returns a max_dim x max_dim canvas
with the resized image centered: top and left padding are the floor of half
the missing amount, bottom and right padding absorb the remainder, the
window is exactly the rectangle occupied by the resized content, every pixel
outside that rectangle is zero, and every pixel inside it is the resized
image's pixel. -/
theorem resizeImage_padding_centered (img : Mat) (min_dim max_dim : Int)
    (rm : Mat) (hrm : rm = resizedMat img min_dim max_dim)
    (h1 : rm.rows ≤ max_dim) (h2 : rm.cols ≤ max_dim) :
    (ResizeImage img min_dim max_dim true).image.rows = max_dim ∧
    (ResizeImage img min_dim max_dim true).image.cols = max_dim ∧
    (ResizeImage img min_dim max_dim true).padding.top_pad =
      (max_dim - rm.rows) / 2 ∧
    (ResizeImage img min_dim max_dim true).padding.left_pad =
      (max_dim - rm.cols) / 2 ∧
    (ResizeImage img min_dim max_dim true).padding.top_pad +
      (ResizeImage img min_dim max_dim true).padding.bottom_pad =
        max_dim - rm.rows ∧
    (ResizeImage img min_dim max_dim true).padding.left_pad +
      (ResizeImage img min_dim max_dim true).padding.right_pad =
        max_dim - rm.cols ∧
    (ResizeImage img min_dim max_dim true).window =
      ⟨(max_dim - rm.rows) / 2, (max_dim - rm.cols) / 2,
        rm.rows + (max_dim - rm.rows) / 2, rm.cols + (max_dim - rm.cols) / 2⟩ ∧
    (∀ r c : Int,
      ¬((max_dim - rm.rows) / 2 ≤ r ∧ r < (max_dim - rm.rows) / 2 + rm.rows ∧
        (max_dim - rm.cols) / 2 ≤ c ∧ c < (max_dim - rm.cols) / 2 + rm.cols) →
      (ResizeImage img min_dim max_dim true).image.px r c = 0) ∧
    (∀ r c : Int,
      ((max_dim - rm.rows) / 2 ≤ r ∧ r < (max_dim - rm.rows) / 2 + rm.rows ∧
        (max_dim - rm.cols) / 2 ≤ c ∧ c < (max_dim - rm.cols) / 2 + rm.cols) →
      (ResizeImage img min_dim max_dim true).image.px r c =
        rm.px (r - (max_dim - rm.rows) / 2) (c - (max_dim - rm.cols) / 2)) := by
  subst hrm
  have htr : Int.tdiv (max_dim - (resizedMat img min_dim max_dim).rows) 2 =
      (max_dim - (resizedMat img min_dim max_dim).rows) / 2 :=
    Int.tdiv_eq_ediv (by omega) (by norm_num)
  have htc : Int.tdiv (max_dim - (resizedMat img min_dim max_dim).cols) 2 =
      (max_dim - (resizedMat img min_dim max_dim).cols) / 2 :=
    Int.tdiv_eq_ediv (by omega) (by norm_num)
  rw [← htr, ← htc]
  simp only [ResizeImage, copyMakeBorder, if_true]
  refine ⟨by omega, by omega, by trivial, by trivial, by omega, by omega,
    by trivial, ?_, ?_⟩
  · intro r c hn
    rw [if_neg hn]
  · intro r c hin
    rw [if_pos hin]

/-- Witness for C7: the 2x3 image with min_dim = 0, max_dim = 4 and padding
requested lands centered on a 4x4 canvas with window {1, 0, 3, 3}. -/
theorem resizeImage_padding_centered_witness :
    ((resizedMat cMat23 0 4).rows ≤ 4 ∧ (resizedMat cMat23 0 4).cols ≤ 4) ∧
    (ResizeImage cMat23 0 4 true).image.rows = 4 ∧
    (ResizeImage cMat23 0 4 true).image.cols = 4 ∧
    (ResizeImage cMat23 0 4 true).window =
      ⟨(4 - (resizedMat cMat23 0 4).rows) / 2, (4 - (resizedMat cMat23 0 4).cols) / 2,
        (resizedMat cMat23 0 4).rows + (4 - (resizedMat cMat23 0 4).rows) / 2,
        (resizedMat cMat23 0 4).cols + (4 - (resizedMat cMat23 0 4).cols) / 2⟩ := by
  have hfix : resizedMat cMat23 0 4 = cMat23 := by
    rw [resizedMat]
    have hs : scaleFinal cMat23.rows cMat23.cols 0 4 = 1 := by
      rw [scaleFinal, scaleMin]
      norm_num [cMat23, rnd]
    rw [hs]
    simp
  have hr : (resizedMat cMat23 0 4).rows ≤ 4 := by rw [hfix]; decide
  have hc : (resizedMat cMat23 0 4).cols ≤ 4 := by rw [hfix]; decide
  have main := resizeImage_padding_centered cMat23 0 4 (resizedMat cMat23 0 4)
    rfl hr hc
  exact ⟨⟨hr, hc⟩, main.1, main.2.1, main.2.2.2.2.2.2.1⟩

theorem rnd_comp_err (r s1 s2 : ℚ) (hr : 0 ≤ r) (hs1 : 0 ≤ s1) (hs2 : 0 < s2) :
    |((rnd ((rnd (r * s1) : ℚ) * s2) : ℚ)) - (rnd (r * (s1 * s2)) : ℚ)| ≤
      s2/2 + 1 := by
  have h1 : 0 ≤ r * s1 := mul_nonneg hr hs1
  have hA : 0 ≤ (rnd (r * s1) : ℚ) := by exact_mod_cast rnd_nonneg _ h1
  have h2 : 0 ≤ (rnd (r * s1) : ℚ) * s2 := mul_nonneg hA hs2.le
  have h3 : 0 ≤ r * (s1 * s2) := by
    rw [← mul_assoc]
    exact mul_nonneg h1 hs2.le
  have e1 := rnd_err ((rnd (r * s1) : ℚ) * s2) h2
  have e2 := rnd_err (r * s1) h1
  have e3 := rnd_err (r * (s1 * s2)) h3
  have emid : |(rnd (r * s1) : ℚ) * s2 - r * (s1 * s2)| ≤ s2/2 := by
    have : (rnd (r * s1) : ℚ) * s2 - r * (s1 * s2) =
        ((rnd (r * s1) : ℚ) - r * s1) * s2 := by ring
    rw [this, abs_mul, abs_of_pos hs2]
    calc |(rnd (r * s1) : ℚ) - r * s1| * s2 ≤ (1/2) * s2 :=
          mul_le_mul_of_nonneg_right e2 hs2.le
      _ = s2/2 := by ring
  calc |((rnd ((rnd (r * s1) : ℚ) * s2) : ℚ)) - (rnd (r * (s1 * s2)) : ℚ)|
      ≤ |((rnd ((rnd (r * s1) : ℚ) * s2) : ℚ)) - (rnd (r * s1) : ℚ) * s2| +
        |(rnd (r * s1) : ℚ) * s2 - (rnd (r * (s1 * s2)) : ℚ)| := abs_sub_le _ _ _
    _ ≤ 1/2 + (|(rnd (r * s1) : ℚ) * s2 - r * (s1 * s2)| +
        |r * (s1 * s2) - (rnd (r * (s1 * s2)) : ℚ)|) :=
          add_le_add e1 (abs_sub_le _ _ _)
    _ ≤ 1/2 + (s2/2 + 1/2) := by
          have e3' : |r * (s1 * s2) - (rnd (r * (s1 * s2)) : ℚ)| ≤ 1/2 := by
            rw [abs_sub_comm]
            exact e3
          linarith
    _ = s2/2 + 1 := by ring

/-- The all-zero Padding value, used to compare pixel dimensions ignoring
padding. -/
def zeroPad : Padding := ⟨0, 0, 0, 0, 0, 0⟩

/-- Claim C9: ResizeMasks processes masks independently and in order (the
output has the input's length and its i-th entry is the resize-and-pad of
the i-th input), each output has dimensions round(rows*scale) and
round(cols*scale) plus the padding amounts, and composing two calls with
scales s1 then s2 (ignoring padding) matches one call with scale s1*s2 in
both pixel dimensions up to the rounding tolerance s2/2 + 1. -/
theorem resizeMasks_dims_and_composition (masks : List Mat) (s : ℚ) (p : Padding)
    (m : Mat) (s1 s2 : ℚ) (hr : (0:ℤ) ≤ m.rows) (hc : (0:ℤ) ≤ m.cols)
    (hs1 : 0 ≤ s1) (hs2 : 0 < s2) :
    (ResizeMasks masks s p).length = masks.length ∧
    (∀ i : ℕ, i < masks.length →
      (ResizeMasks masks s p).getD i zeroMat =
        resizeMaskOne s p (masks.getD i zeroMat)) ∧
    (∀ mk : Mat, (resizeMaskOne s p mk).rows =
        rnd ((mk.rows : ℚ) * s) + p.top_pad + p.bottom_pad ∧
      (resizeMaskOne s p mk).cols =
        rnd ((mk.cols : ℚ) * s) + p.left_pad + p.right_pad) ∧
    |((((ResizeMasks (ResizeMasks [m] s1 zeroPad) s2 zeroPad).getD 0 zeroMat).rows : ℚ)) -
        (((ResizeMasks [m] (s1 * s2) zeroPad).getD 0 zeroMat).rows : ℚ)| ≤ s2/2 + 1 ∧
    |((((ResizeMasks (ResizeMasks [m] s1 zeroPad) s2 zeroPad).getD 0 zeroMat).cols : ℚ)) -
        (((ResizeMasks [m] (s1 * s2) zeroPad).getD 0 zeroMat).cols : ℚ)| ≤ s2/2 + 1 := by
  refine ⟨by simp [ResizeMasks], ?_, ?_, ?_, ?_⟩
  · intro i hi
    exact getD_map_of_lt _ _ _ _ hi
  · intro mk
    exact ⟨rfl, rfl⟩
  · have hrows : (((ResizeMasks (ResizeMasks [m] s1 zeroPad) s2 zeroPad).getD 0
        zeroMat).rows) = rnd ((rnd ((m.rows : ℚ) * s1) : ℚ) * s2) := by
      simp [ResizeMasks, resizeMaskOne, copyMakeBorder, cvResize, zeroPad]
    have hrows2 : (((ResizeMasks [m] (s1 * s2) zeroPad).getD 0 zeroMat).rows) =
        rnd ((m.rows : ℚ) * (s1 * s2)) := by
      simp [ResizeMasks, resizeMaskOne, copyMakeBorder, cvResize, zeroPad]
    rw [hrows, hrows2]
    exact rnd_comp_err (m.rows : ℚ) s1 s2 (by exact_mod_cast hr) hs1 hs2
  · have hcols : (((ResizeMasks (ResizeMasks [m] s1 zeroPad) s2 zeroPad).getD 0
        zeroMat).cols) = rnd ((rnd ((m.cols : ℚ) * s1) : ℚ) * s2) := by
      simp [ResizeMasks, resizeMaskOne, copyMakeBorder, cvResize, zeroPad]
    have hcols2 : (((ResizeMasks [m] (s1 * s2) zeroPad).getD 0 zeroMat).cols) =
        rnd ((m.cols : ℚ) * (s1 * s2)) := by
      simp [ResizeMasks, resizeMaskOne, copyMakeBorder, cvResize, zeroPad]
    rw [hcols, hcols2]
    exact rnd_comp_err (m.cols : ℚ) s1 s2 (by exact_mod_cast hc) hs1 hs2

/-- A concrete 4x6 zero mask and a concrete padding used by the C9 witness. -/
def cMat46 : Mat := ⟨4, 6, fun _ _ => 0⟩

def cPad : Padding := ⟨1, 2, 3, 4, 0, 0⟩

/-- Witness for C9 at the 4x6 mask with scales 3/2 and 1/2. -/
theorem resizeMasks_dims_and_composition_witness :
    ((0:ℤ) ≤ cMat46.rows ∧ (0:ℤ) ≤ cMat46.cols ∧ (0:ℚ) ≤ 3/2 ∧ (0:ℚ) < 1/2) ∧
    (ResizeMasks [cMat46] (3/2) cPad).length = [cMat46].length := by
  have main := resizeMasks_dims_and_composition [cMat46] (3/2) cPad cMat46 (3/2)
    (1/2) (by decide) (by decide) (by norm_num) (by norm_num)
  exact ⟨⟨by decide, by decide, by norm_num, by norm_num⟩, main.1⟩

theorem bilinearAt_of_ones (m : Mat) (h1 : 0 < m.rows) (h2 : 0 < m.cols)
    (hall : ∀ r c : Int, 0 ≤ r → r < m.rows → 0 ≤ c → c < m.cols → m.px r c = 1)
    (x y : ℚ) : bilinearAt m x y = 1 := by
  rw [bilinearAt]
  have hp : ∀ yy xx : Int,
      m.px (max 0 (min yy (m.rows - 1))) (max 0 (min xx (m.cols - 1))) = 1 := by
    intro yy xx
    apply hall <;> omega
  simp only [hp]
  ring

/-- Number of pixels of a matrix, over its row/column grid, equal to a given
value. -/
def countEq (m : Mat) (v : ℚ) : ℕ :=
  (((Finset.Ico (0 : Int) m.rows) ×ˢ (Finset.Ico (0 : Int) m.cols)).filter
    (fun p => m.px p.1 p.2 = v)).card

theorem unmoldMask_px (mask : Mat) (b : IBox) (sz : Size) (r c : Int) :
    (UnmoldMask mask b sz).px r c =
      saturate8U (if b.y1 ≤ r ∧ r < b.y2 ∧ b.x1 ≤ c ∧ c < b.x2 then
        (if 1/2 < (cvResize mask (b.x2 - b.x1) (b.y2 - b.y1)).px (r - b.y1)
            (c - b.x1) then 1 else 0) * 255
      else 0) := rfl

theorem saturate8U_255 : saturate8U 255 = 255 := by
  rw [saturate8U, rnd]
  norm_num

theorem saturate8U_0 : saturate8U 0 = 0 := by
  rw [saturate8U, rnd]
  norm_num

/-- Claim C8: UnmoldMask produces a mask of the full original image size;
applied to an all-ones low-resolution mask over an in-bounds box with
positive sides, every pixel inside the box rectangle is 255, every pixel
outside it is 0, and exactly box-height * box-width pixels of the image grid
equal 255; and for any low-resolution mask the output pixels take only the
thresholded values 0 and 255. -/
theorem unmoldMask_ones (mask : Mat) (b : IBox) (H W : Int)
    (hm1 : (0:ℤ) < mask.rows) (hm2 : (0:ℤ) < mask.cols)
    (hall : ∀ r c : Int, 0 ≤ r → r < mask.rows → 0 ≤ c → c < mask.cols →
      mask.px r c = 1)
    (hx1 : (0:ℤ) ≤ b.x1) (hx12 : b.x1 < b.x2) (hx2 : b.x2 ≤ W)
    (hy1 : (0:ℤ) ≤ b.y1) (hy12 : b.y1 < b.y2) (hy2 : b.y2 ≤ H) :
    (UnmoldMask mask b ⟨H, W⟩).rows = H ∧
    (UnmoldMask mask b ⟨H, W⟩).cols = W ∧
    (∀ r c : Int, (b.y1 ≤ r ∧ r < b.y2 ∧ b.x1 ≤ c ∧ c < b.x2) →
      (UnmoldMask mask b ⟨H, W⟩).px r c = 255) ∧
    (∀ r c : Int, ¬(b.y1 ≤ r ∧ r < b.y2 ∧ b.x1 ≤ c ∧ c < b.x2) →
      (UnmoldMask mask b ⟨H, W⟩).px r c = 0) ∧
    countEq (UnmoldMask mask b ⟨H, W⟩) 255 =
      (b.y2 - b.y1).toNat * (b.x2 - b.x1).toNat ∧
    (∀ (m2 : Mat) (r c : Int), (UnmoldMask m2 b ⟨H, W⟩).px r c = 0 ∨
      (UnmoldMask m2 b ⟨H, W⟩).px r c = 255) := by
  have hbil : ∀ x y : ℚ, bilinearAt mask x y = 1 :=
    bilinearAt_of_ones mask hm1 hm2 hall
  have hin : ∀ r c : Int, (b.y1 ≤ r ∧ r < b.y2 ∧ b.x1 ≤ c ∧ c < b.x2) →
      (UnmoldMask mask b ⟨H, W⟩).px r c = 255 := by
    intro r c hcond
    rw [unmoldMask_px, if_pos hcond]
    have hres : (cvResize mask (b.x2 - b.x1) (b.y2 - b.y1)).px (r - b.y1)
        (c - b.x1) = 1 := hbil _ _
    rw [hres, if_pos (by norm_num), one_mul, saturate8U_255]
  have hout : ∀ r c : Int, ¬(b.y1 ≤ r ∧ r < b.y2 ∧ b.x1 ≤ c ∧ c < b.x2) →
      (UnmoldMask mask b ⟨H, W⟩).px r c = 0 := by
    intro r c hcond
    rw [unmoldMask_px, if_neg hcond, saturate8U_0]
  refine ⟨rfl, rfl, hin, hout, ?_, ?_⟩
  · have hrw : (UnmoldMask mask b ⟨H, W⟩).rows = H := rfl
    have hcw : (UnmoldMask mask b ⟨H, W⟩).cols = W := rfl
    rw [countEq, hrw, hcw]
    have hset : (((Finset.Ico (0 : Int) H) ×ˢ
        (Finset.Ico (0 : Int) W)).filter
        (fun p => (UnmoldMask mask b ⟨H, W⟩).px p.1 p.2 = 255)) =
        (Finset.Ico b.y1 b.y2) ×ˢ (Finset.Ico b.x1 b.x2) := by
      ext p
      simp only [Finset.mem_filter, Finset.mem_product, Finset.mem_Ico]
      constructor
      · rintro ⟨⟨⟨h0r, hrH⟩, h0c, hcW⟩, hpx⟩
        by_contra hno
        have hno' : ¬(b.y1 ≤ p.1 ∧ p.1 < b.y2 ∧ b.x1 ≤ p.2 ∧ p.2 < b.x2) := by
          intro hcond
          exact hno ⟨⟨hcond.1, hcond.2.1⟩, hcond.2.2.1, hcond.2.2.2⟩
        rw [hout p.1 p.2 hno'] at hpx
        norm_num at hpx
      · rintro ⟨⟨ha, hb'⟩, hc', hd⟩
        exact ⟨⟨⟨by omega, by omega⟩, by omega, by omega⟩,
          hin p.1 p.2 ⟨ha, hb', hc', hd⟩⟩
    rw [hset, Finset.card_product, Int.card_Ico, Int.card_Ico]
  · intro m2 r c
    rw [unmoldMask_px]
    split_ifs with hcond hthr
    · right
      rw [one_mul, saturate8U_255]
    · left
      rw [zero_mul, saturate8U_0]
    · left
      rw [saturate8U_0]

/-- A concrete all-ones 2x2 low-resolution mask and a concrete box used by
the C8 witness. -/
def cMat22ones : Mat := ⟨2, 2, fun _ _ => 1⟩

def cBox : IBox := ⟨0, 0, 2, 1⟩

/-- Witness for C8: the 2x2 all-ones mask over box (y1,x1,y2,x2) = (0,0,2,1)
inside a 3x3 image yields exactly 2*1 pixels equal to 255. -/
theorem unmoldMask_ones_witness :
    ((0:ℤ) < cMat22ones.rows ∧ (0:ℤ) < cMat22ones.cols ∧
      (0:ℤ) ≤ cBox.x1 ∧ cBox.x1 < cBox.x2 ∧ cBox.x2 ≤ 3 ∧
      (0:ℤ) ≤ cBox.y1 ∧ cBox.y1 < cBox.y2 ∧ cBox.y2 ≤ 3) ∧
    countEq (UnmoldMask cMat22ones cBox ⟨3, 3⟩) 255 =
      (cBox.y2 - cBox.y1).toNat * (cBox.x2 - cBox.x1).toNat := by
  have main := unmoldMask_ones cMat22ones cBox 3 3 (by decide) (by decide)
    (fun r c _ _ _ _ => rfl) (by decide) (by decide) (by decide) (by decide)
    (by decide) (by decide)
  exact ⟨⟨by decide, by decide, by decide, by decide, by decide, by decide,
    by decide, by decide⟩, main.2.2.2.2.1⟩

/-- A one-row detections buffer whose box remaps to the degenerate box
(0,0,0,0): every detection is filtered out by the area test. -/
def c1Dets : List DetRow := [⟨0, 0, 0, 0, 1, 9/10⟩]

/-- Claim C1 (code-bug exhibit): on a buffer whose single detection remaps
to the degenerate box (0,0,0,0) — so the area filter drops everything — the
source does not construct empty outputs: the unimplemented TODO branch
returns all four outputs unfiltered, still holding the degenerate
detection. -/
theorem unmoldDetections_all_filtered_not_empty :
    (UnmoldDetections c1Dets [fun _ => cMat22ones] ⟨10, 10⟩
      ⟨0, 0, 10, 10⟩).boxes = [⟨0, 0, 0, 0⟩] ∧
    (UnmoldDetections c1Dets [fun _ => cMat22ones] ⟨10, 10⟩
      ⟨0, 0, 10, 10⟩).class_ids = [1] ∧
    (UnmoldDetections c1Dets [fun _ => cMat22ones] ⟨10, 10⟩
      ⟨0, 0, 10, 10⟩).scores = [9/10] ∧
    (UnmoldDetections c1Dets [fun _ => cMat22ones] ⟨10, 10⟩
      ⟨0, 0, 10, 10⟩).full_masks.length = 1 := by
  norm_num [UnmoldDetections, unmoldTail, c1Dets, firstZeroIdx, remapBox,
    truncQ, List.filter]

/-- A one-row detections buffer whose box remaps to (5,5,3,3): both sides
negative, so the area product is positive and the filter keeps it. -/
def c10Dets : List DetRow := [⟨5, 5, 3, 3, 1, 9/10⟩]

/-- Claim C10 counterexample: the area filter keeps the box (5,5,3,3), whose
height and width are both negative (product of two negatives is positive),
so a box violating the UnmoldMask precondition y1 < y2 reaches UnmoldMask. -/
theorem unmoldMask_precondition_counterexample :
    (UnmoldDetections c10Dets [fun _ => cMat22ones] ⟨10, 10⟩
      ⟨0, 0, 10, 10⟩).boxes = [⟨5, 5, 3, 3⟩] ∧
    (UnmoldDetections c10Dets [fun _ => cMat22ones] ⟨10, 10⟩
      ⟨0, 0, 10, 10⟩).full_masks.length = 1 ∧
    ((UnmoldDetections c10Dets [fun _ => cMat22ones] ⟨10, 10⟩
      ⟨0, 0, 10, 10⟩).boxes.getD 0 ⟨0, 0, 0, 0⟩).y2 <
      ((UnmoldDetections c10Dets [fun _ => cMat22ones] ⟨10, 10⟩
        ⟨0, 0, 10, 10⟩).boxes.getD 0 ⟨0, 0, 0, 0⟩).y1 := by
  have h : (UnmoldDetections c10Dets [fun _ => cMat22ones] ⟨10, 10⟩
      ⟨0, 0, 10, 10⟩).boxes = [⟨5, 5, 3, 3⟩] := by
    norm_num [UnmoldDetections, unmoldTail, c10Dets, firstZeroIdx, remapBox,
      truncQ, List.filter]
  refine ⟨h, ?_, ?_⟩
  · norm_num [UnmoldDetections, unmoldTail, c10Dets, firstZeroIdx, remapBox,
      truncQ, List.filter]
  · rw [h]
    decide

theorem unmoldTail_mem (dets : List DetRow) (masks : List Mat)
    (image_shape : Size) (window : Window) :
    ∀ bx ∈ (unmoldTail dets masks image_shape window).boxes,
      (∃ j : ℕ, j < dets.length ∧
        bx = (dets.map (remapBox window image_shape)).getD j ⟨0, 0, 0, 0⟩ ∧
        0 < (bx.y2 - bx.y1) * (bx.x2 - bx.x1)) ∨
      ((List.range dets.length).filter (fun i =>
          let b := (dets.map (remapBox window image_shape)).getD i ⟨0, 0, 0, 0⟩
          0 < (b.y2 - b.y1) * (b.x2 - b.x1)) = [] ∧
        ∃ j : ℕ, j < dets.length ∧
          bx = (dets.map (remapBox window image_shape)).getD j ⟨0, 0, 0, 0⟩) := by
  intro bx hbx
  simp only [unmoldTail] at hbx
  split at hbx
  · rename_i hlen
    left
    obtain ⟨i, hiincl, heq⟩ := List.mem_map.mp hbx
    have hmem := List.mem_filter.mp hiincl
    have hi : i < dets.length := List.mem_range.mp hmem.1
    have hpred : 0 <
        (((dets.map (remapBox window image_shape)).getD i ⟨0, 0, 0, 0⟩).y2 -
          ((dets.map (remapBox window image_shape)).getD i ⟨0, 0, 0, 0⟩).y1) *
        (((dets.map (remapBox window image_shape)).getD i ⟨0, 0, 0, 0⟩).x2 -
          ((dets.map (remapBox window image_shape)).getD i ⟨0, 0, 0, 0⟩).x1) := by
      simpa using hmem.2
    exact ⟨i, hi, heq.symm, heq ▸ hpred⟩
  · rename_i hlen
    right
    have hnil : (List.range dets.length).filter (fun i =>
        let b := (dets.map (remapBox window image_shape)).getD i ⟨0, 0, 0, 0⟩
        0 < (b.y2 - b.y1) * (b.x2 - b.x1)) = [] := by
      by_contra hne
      exact hlen (List.length_pos.mpr hne)
    refine ⟨hnil, ?_⟩
    obtain ⟨n, hn, heq⟩ := List.getElem_of_mem hbx
    have hn' : n < dets.length := by simpa using hn
    exact ⟨n, hn', by rw [List.getD_eq_getElem _ _ hn, heq]⟩

/-- Claim C10 (amended): the area filter only guarantees a positive product
(height times width); it does not by itself ensure the UnmoldMask
precondition.  If additionally every remapped box of the first N rows has
nonnegative height and width and lies inside the original image bounds, and
at least one remapped box has positive area (so the unimplemented
all-filtered branch is not taken), then every box handed to UnmoldMask
satisfies 0 <= x1 < x2 <= width and 0 <= y1 < y2 <= height. -/
theorem unmoldMask_precondition_amended (detections : List DetRow)
    (mrcnn_mask : List (Int → Mat)) (H W : Int) (window : Window)
    (hbnd : ∀ i : ℕ, i < firstZeroIdx detections →
      (0 ≤ (remapBox window ⟨H, W⟩ (detections.getD i default)).y1 ∧
        (remapBox window ⟨H, W⟩ (detections.getD i default)).y1 ≤
          (remapBox window ⟨H, W⟩ (detections.getD i default)).y2 ∧
        (remapBox window ⟨H, W⟩ (detections.getD i default)).y2 ≤ H ∧
        0 ≤ (remapBox window ⟨H, W⟩ (detections.getD i default)).x1 ∧
        (remapBox window ⟨H, W⟩ (detections.getD i default)).x1 ≤
          (remapBox window ⟨H, W⟩ (detections.getD i default)).x2 ∧
        (remapBox window ⟨H, W⟩ (detections.getD i default)).x2 ≤ W))
    (hpos : ∃ i : ℕ, i < firstZeroIdx detections ∧
      0 < ((remapBox window ⟨H, W⟩ (detections.getD i default)).y2 -
            (remapBox window ⟨H, W⟩ (detections.getD i default)).y1) *
          ((remapBox window ⟨H, W⟩ (detections.getD i default)).x2 -
            (remapBox window ⟨H, W⟩ (detections.getD i default)).x1)) :
    ∀ bx ∈ (UnmoldDetections detections mrcnn_mask ⟨H, W⟩ window).boxes,
      0 ≤ bx.y1 ∧ bx.y1 < bx.y2 ∧ bx.y2 ≤ H ∧
      0 ≤ bx.x1 ∧ bx.x1 < bx.x2 ∧ bx.x2 ≤ W := by
  intro bx hbx
  have hlen : (detections.take (firstZeroIdx detections)).length =
      firstZeroIdx detections := by
    rw [List.length_take]
    exact inf_eq_left.mpr (firstZeroIdx_le_length detections)
  have hbox_at : ∀ i : ℕ, i < firstZeroIdx detections →
      ((detections.take (firstZeroIdx detections)).map
        (remapBox window ⟨H, W⟩)).getD i ⟨0, 0, 0, 0⟩ =
        remapBox window ⟨H, W⟩ (detections.getD i default) := by
    intro i hi
    have hi' : i < (detections.take (firstZeroIdx detections)).length := by omega
    rw [getD_map_of_lt (remapBox window ⟨H, W⟩)
        (detections.take (firstZeroIdx detections)) default ⟨0, 0, 0, 0⟩ hi',
      getD_take_of_lt detections default _ i hi]
  have hunf : UnmoldDetections detections mrcnn_mask ⟨H, W⟩ window =
      unmoldTail (detections.take (firstZeroIdx detections))
        ((List.range (firstZeroIdx detections)).map
          (fun i => (mrcnn_mask.getD i (fun _ => zeroMat))
            (((detections.take (firstZeroIdx detections)).map
              (fun d => truncQ d.class_id)).getD i 0)))
        ⟨H, W⟩ window := rfl
  rw [hunf] at hbx
  have key := unmoldTail_mem _ _ _ _ bx hbx
  rcases key with ⟨j, hj, heq, harea⟩ | ⟨hemp, _⟩
  · have hj' : j < firstZeroIdx detections := hlen ▸ hj
    have heq' : bx = remapBox window ⟨H, W⟩ (detections.getD j default) := by
      rw [heq, hbox_at j hj']
    obtain ⟨b1, b2, b3, b4, b5, b6⟩ := heq' ▸ hbnd j hj'
    rcases pos_and_pos_or_neg_and_neg_of_mul_pos harea with ⟨p1, p2⟩ | ⟨p1, p2⟩
    · exact ⟨b1, by omega, b3, b4, by omega, b6⟩
    · omega
  · exfalso
    obtain ⟨i, hi, hp⟩ := hpos
    have hi2 : i < (detections.take (firstZeroIdx detections)).length := by omega
    have hmem : i ∈ (List.range (detections.take
        (firstZeroIdx detections)).length).filter (fun k =>
        let b := ((detections.take (firstZeroIdx detections)).map
          (remapBox window ⟨H, W⟩)).getD k ⟨0, 0, 0, 0⟩
        0 < (b.y2 - b.y1) * (b.x2 - b.x1)) := by
      rw [List.mem_filter]
      refine ⟨List.mem_range.mpr hi2, ?_⟩
      simp only [decide_eq_true_eq]
      rw [hbox_at i hi]
      exact hp
    rw [hemp] at hmem
    exact absurd hmem (List.not_mem_nil i)

/-- A one-row detections buffer whose box remaps to the well-formed box
(0,0,2,2), used by the amended C10 witness. -/
def cW10Dets : List DetRow := [⟨0, 0, 2, 2, 1, 1⟩]

/-- Witness for the amended C10 at a one-row buffer whose box remaps to the
in-bounds positive-area box (0,0,2,2). -/
theorem unmoldMask_precondition_amended_witness :
    ((∀ i : ℕ, i < firstZeroIdx cW10Dets →
      (0 ≤ (remapBox ⟨0, 0, 10, 10⟩ ⟨10, 10⟩ (cW10Dets.getD i default)).y1 ∧
        (remapBox ⟨0, 0, 10, 10⟩ ⟨10, 10⟩ (cW10Dets.getD i default)).y1 ≤
          (remapBox ⟨0, 0, 10, 10⟩ ⟨10, 10⟩ (cW10Dets.getD i default)).y2 ∧
        (remapBox ⟨0, 0, 10, 10⟩ ⟨10, 10⟩ (cW10Dets.getD i default)).y2 ≤ 10 ∧
        0 ≤ (remapBox ⟨0, 0, 10, 10⟩ ⟨10, 10⟩ (cW10Dets.getD i default)).x1 ∧
        (remapBox ⟨0, 0, 10, 10⟩ ⟨10, 10⟩ (cW10Dets.getD i default)).x1 ≤
          (remapBox ⟨0, 0, 10, 10⟩ ⟨10, 10⟩ (cW10Dets.getD i default)).x2 ∧
        (remapBox ⟨0, 0, 10, 10⟩ ⟨10, 10⟩ (cW10Dets.getD i default)).x2 ≤ 10))) ∧
    (∀ bx ∈ (UnmoldDetections cW10Dets [fun _ => cMat22ones] ⟨10, 10⟩
        ⟨0, 0, 10, 10⟩).boxes,
      0 ≤ bx.y1 ∧ bx.y1 < bx.y2 ∧ bx.y2 ≤ 10 ∧
      0 ≤ bx.x1 ∧ bx.x1 < bx.x2 ∧ bx.x2 ≤ 10) := by
  have hrm : remapBox ⟨0, 0, 10, 10⟩ ⟨10, 10⟩ (cW10Dets.getD 0 default) =
      ⟨0, 0, 2, 2⟩ := by
    rw [remapBox]
    norm_num [truncQ, cW10Dets]
  have hone : firstZeroIdx cW10Dets = 1 := by
    simp [cW10Dets, firstZeroIdx]
  have hbnd : ∀ i : ℕ, i < firstZeroIdx cW10Dets →
      (0 ≤ (remapBox ⟨0, 0, 10, 10⟩ ⟨10, 10⟩ (cW10Dets.getD i default)).y1 ∧
        (remapBox ⟨0, 0, 10, 10⟩ ⟨10, 10⟩ (cW10Dets.getD i default)).y1 ≤
          (remapBox ⟨0, 0, 10, 10⟩ ⟨10, 10⟩ (cW10Dets.getD i default)).y2 ∧
        (remapBox ⟨0, 0, 10, 10⟩ ⟨10, 10⟩ (cW10Dets.getD i default)).y2 ≤ 10 ∧
        0 ≤ (remapBox ⟨0, 0, 10, 10⟩ ⟨10, 10⟩ (cW10Dets.getD i default)).x1 ∧
        (remapBox ⟨0, 0, 10, 10⟩ ⟨10, 10⟩ (cW10Dets.getD i default)).x1 ≤
          (remapBox ⟨0, 0, 10, 10⟩ ⟨10, 10⟩ (cW10Dets.getD i default)).x2 ∧
        (remapBox ⟨0, 0, 10, 10⟩ ⟨10, 10⟩ (cW10Dets.getD i default)).x2 ≤ 10) := by
    intro i hi
    rw [hone] at hi
    interval_cases i
    rw [hrm]
    norm_num
  refine ⟨hbnd, unmoldMask_precondition_amended cW10Dets [fun _ => cMat22ones]
    10 10 ⟨0, 0, 10, 10⟩ hbnd ⟨0, ?_, ?_⟩⟩
  · rw [hone]
    norm_num
  · rw [hrm]
    norm_num

end ImageUtils
